import Mathlib

/-!
# selectivity.cpp

A shallow embedding of `src/selectivity.cpp`, the adsorption selectivity
calculator, and the properties of it that the specification states.

The program's `double`s are modelled in exact arithmetic: a value is a rational
number, and a division whose divisor is zero has no value (`none`).  The IEEE
infinities and NaNs that the hardware produces in that case, rounding, overflow
and underflow are outside the model.
-/

namespace Selectivity

/-! ## Arithmetic -/

/-- The quotient `x / y` of two program variables; it has no value when the
divisor is zero. -/
def divide (x y : ℚ) : Option ℚ :=
  if y = 0 then none else some (x / y)

/-- The quotient of two intermediate results, either of which may already be
without a value. -/
def fdiv (x y : Option ℚ) : Option ℚ :=
  match x, y with
  | some a, some b => divide a b
  | _, _ => none

/-! ## Reading the sorbed quantities -/

/-- The statement `file >> x`.  The first argument is what the extraction
stores, if anything: `none` when the stream could not be opened or reaches the
end of the file before a token (the variable keeps its previous value), `some v`
when a value `v` is stored. -/
def extract (stored : Option ℚ) (x : ℚ) : ℚ :=
  match stored with
  | some v => v
  | none => x

/-! ## The body of `main` -/

/-- The local variables of `main` when the output statement is reached.  `A`,
`B` and `Total` hold their final values, which are the sorbed quantities. -/
structure Locals where
  P : ℚ
  A : ℚ
  B : ℚ
  Total : ℚ
  yA : Option ℚ
  yB : Option ℚ
  xA : Option ℚ
  xB : Option ℚ

/-- Lines 18 to 35 of `main`: `P`, `A` and `B` are the results of `atof` on the
first three arguments, `storedA` and `storedB` what the two extractions store.
The variables `A`, `B` and `Total` are assigned twice, as in the source; the
initial value 0 of `xA` and `xB` is overwritten before it is read and is left
out. -/
def locals (P A B : ℚ) (storedA storedB : Option ℚ) : Locals :=
  let Total := A + B
  let yA := divide A Total
  let yB := divide B Total
  let A := extract storedA A
  let B := extract storedB B
  let Total := A + B
  let xA := divide A Total
  let xB := divide B Total
  { P := P, A := A, B := B, Total := Total, yA := yA, yB := yB, xA := xA, xB := xB }

/-- The expression `(xA/yA)/(xB/yB)` of the output statement. -/
def selectivity (L : Locals) : Option ℚ :=
  fdiv (fdiv L.xA L.yA) (fdiv L.xB L.yB)

/-! ## Formatting -/

/-- The integer nearest to `n / d`, ties going to the even neighbour. -/
def roundHalfEven (n d : ℕ) : ℕ :=
  let f := n / d
  let r := n % d
  if 2 * r < d then f
  else if d < 2 * r then f + 1
  else if f % 2 = 0 then f
  else f + 1

/-- The last `w` decimal digits of `n`, most significant first. -/
def lastDigits : ℕ → ℕ → List Char
  | 0, _ => []
  | w + 1, n => lastDigits w (n / 10) ++ [Nat.digitChar (n % 10)]

/-- A number written under `std::fixed << std::setprecision(prec)`: a minus sign
for a negative value, the integer part, and for a positive precision the point
and exactly `prec` digits. -/
def fixed (prec : ℕ) (q : ℚ) : List Char :=
  let m := roundHalfEven (q.num.natAbs * 10 ^ prec) q.den
  let sign := if q < 0 then ['-'] else []
  let intPart := Nat.toDigits 10 (m / 10 ^ prec)
  if prec = 0 then sign ++ intPart
  else sign ++ intPart ++ '.' :: lastDigits prec (m % 10 ^ prec)

/-- A field written under `std::setw(w)`: padded on the left with spaces up to
the width `w`, never truncated. -/
def setw (w : ℕ) (s : List Char) : List Char :=
  List.replicate (w - s.length) ' ' ++ s

/-- What `std::cout << std::setw(10) << x` writes once `std::fixed` and
`std::setprecision(5)` are in force. -/
def field (x : ℚ) : List Char :=
  setw 10 (fixed 5 x)

/-- The line written by the output statement, line 40. -/
def outputLine (L : Locals) : Option (List Char) :=
  match selectivity L with
  | some s => some (field L.P ++ ['\t', ' '] ++ field s ++ ['\n'])
  | none => none

/-- The natural number that a list of decimal digits denotes. -/
def digitsValue (cs : List Char) : ℕ :=
  cs.foldl (fun acc c => 10 * acc + (c.toNat - 48)) 0

/-- What the specification asks of a printed number `cs` showing the value `x`:
fixed-point with exactly 5 digits after the point, right-aligned with spaces in
a field of width 10 (wider when the number needs more room), the digits being
`x` rounded to the fifth decimal. -/
def IsFixed5Field (x : ℚ) (cs : List Char) : Prop :=
  ∃ pad sign intPart frac : List Char,
    cs = pad ++ (sign ++ intPart ++ '.' :: frac)
    ∧ (∀ c ∈ pad, c = ' ')
    ∧ cs.length = max 10 (sign ++ intPart ++ '.' :: frac).length
    ∧ sign = (if x < 0 then ['-'] else [])
    ∧ intPart ≠ [] ∧ (∀ c ∈ intPart, c.isDigit = true)
    ∧ frac.length = 5 ∧ (∀ c ∈ frac, c.isDigit = true)
    ∧ abs ((digitsValue intPart : ℚ) + (digitsValue frac : ℚ) / 10 ^ 5 - abs x) ≤ 1 / (2 * 10 ^ 5)

/-! ## The program -/

/-- The usage text written when the argument count is not 6. -/
def usage (argv0 : String) : String :=
  "Usage:\n" ++ argv0 ++ " <P> <A> <B> <fileA> <fileB>\n"
    ++ "P     - Pressure\n"
    ++ "A     - moles of species A per unit volume in bulk phase.\n"
    ++ "B     - moles of species B per unit volume in bulk phase.\n"
    ++ "fileA - filename of text file whose contents is a single number: the\n        avg moles sorbed of species A.\n"
    ++ "fileB - filename of text file whose contents is a single number: the\n        avg moles sorbed of species B.\n"

/-- The surroundings of a run: the C library's `atof` on the argument strings
and, for each file name, what extracting a `double` from that file stores. -/
structure Env where
  atof : String → ℚ
  stored : String → Option ℚ

/-- The outcome of a run: the exit status and the text on standard output. -/
structure Run where
  status : ℕ
  out : String
deriving DecidableEq

/-- The function `main`, with `argv` the argument vector (`argc` is its length).
The result is `none` when a division by zero occurs: the program then prints an
IEEE special value, which exact arithmetic does not determine. -/
def main (env : Env) (argv : List String) : Option Run :=
  match argv with
  | [_, p, a, b, fileA, fileB] =>
    match outputLine (locals (env.atof p) (env.atof a) (env.atof b)
        (env.stored fileA) (env.stored fileB)) with
    | some line => some { status := 0, out := String.mk line }
    | none => none
  | _ => some { status := 0, out := usage (argv.headD "") }

/-! ## Sample runs -/

/-- Scenario 1 of the specification: `1 1 1 fileA fileB`, both files holding 1. -/
def scenario1Env : Env where
  atof := fun _ => 1
  stored := fun _ => some 1

/-- Scenario 2 of the specification: `10 3 7 fileA fileB`, the files holding 6
and 4. -/
def scenario2Env : Env where
  atof := fun s => if s = "10" then 10 else if s = "3" then 3 else if s = "7" then 7 else 0
  stored := fun s => if s = "fileA" then some 6 else if s = "fileB" then some 4 else none

/-- A run `2 3 5 fileA fileB` in which neither file can be opened. -/
def missingBothEnv : Env where
  atof := fun s => if s = "2" then 2 else if s = "3" then 3 else if s = "5" then 5 else 0
  stored := fun _ => none

/-! ## Auxiliary facts -/

theorem divide_eq_some {x y : ℚ} (h : y ≠ 0) : divide x y = some (x / y) := by
  simp [divide, h]

theorem divide_eq_none {x y : ℚ} (h : y = 0) : divide x y = none := by
  simp [divide, h]

/-- The value of the selectivity in terms of the final `A` and `B`, when every
divisor is different from zero. -/
theorem selectivity_eq_some (P A B : ℚ) (sA sB : Option ℚ)
    (hT : A + B ≠ 0) (hS : extract sA A + extract sB B ≠ 0)
    (hA : A ≠ 0) (hB : B ≠ 0) (hb : extract sB B ≠ 0) :
    selectivity (locals P A B sA sB)
      = some ((extract sA A * B) / (extract sB B * A)) := by
  have h1 : extract sA A / (extract sA A + extract sB B) / (A / (A + B))
      / (extract sB B / (extract sA A + extract sB B) / (B / (A + B)))
      = (extract sA A * B) / (extract sB B * A) := by
    field_simp
    ring
  simp [selectivity, locals, fdiv, divide, hT, hS, hA, hB, hb, h1]

theorem fdiv_none_right (x : Option ℚ) : fdiv x none = none := by
  cases x <;> rfl

theorem fdiv_some_zero (x : Option ℚ) : fdiv x (some 0) = none := by
  cases x <;> simp [fdiv, divide]

/-- The selectivity written out in terms of the arguments of `main` and the
final values of `A` and `B`. -/
theorem selectivity_unfold (P A B : ℚ) (sA sB : Option ℚ) :
    selectivity (locals P A B sA sB)
      = fdiv (fdiv (divide (extract sA A) (extract sA A + extract sB B)) (divide A (A + B)))
          (fdiv (divide (extract sB B) (extract sA A + extract sB B)) (divide B (A + B))) :=
  rfl

/-- The selectivity has a value exactly when no divisor is zero. -/
theorem selectivity_isSome_iff (P A B : ℚ) (sA sB : Option ℚ) :
    (selectivity (locals P A B sA sB)).isSome
      ↔ (A + B ≠ 0 ∧ extract sA A + extract sB B ≠ 0 ∧ A ≠ 0 ∧ B ≠ 0
          ∧ extract sB B ≠ 0) := by
  constructor
  · intro h
    rw [selectivity_unfold] at h
    generalize extract sA A = a at h ⊢
    generalize extract sB B = b at h ⊢
    by_cases hT : A + B = 0
    · rw [divide_eq_none hT, fdiv_none_right] at h
      exact absurd h (by simp [fdiv])
    by_cases hS : a + b = 0
    · rw [divide_eq_none hS] at h
      exact absurd h (by simp [fdiv])
    by_cases hA : A = 0
    · rw [divide_eq_some hT, hA, zero_div, fdiv_some_zero] at h
      exact absurd h (by simp [fdiv])
    by_cases hB : B = 0
    · rw [divide_eq_some hT (x := B), hB, zero_div, fdiv_some_zero, fdiv_none_right] at h
      exact absurd h (by simp)
    by_cases hb : b = 0
    · rw [divide_eq_some hS (x := b), divide_eq_some hT (x := B), hb, zero_div] at h
      have : fdiv (some (0 : ℚ)) (some (B / (A + B))) = some 0 := by
        simp [fdiv, divide, hB, hT]
      rw [this, fdiv_some_zero] at h
      exact absurd h (by simp)
    exact ⟨hT, hS, hA, hB, hb⟩
  · rintro ⟨hT, hS, hA, hB, hb⟩
    rw [selectivity_eq_some P A B sA sB hT hS hA hB hb]
    rfl

/-! ## Facts about the formatting -/

theorem digitChar_isDigit (d : ℕ) (h : d < 10) : (Nat.digitChar d).isDigit = true := by
  interval_cases d <;> rfl

theorem digitChar_value (d : ℕ) (h : d < 10) : (Nat.digitChar d).toNat - 48 = d := by
  interval_cases d <;> rfl

theorem toDigitsCore_isDigit (fuel : ℕ) : ∀ (n : ℕ) (acc : List Char),
    (∀ c ∈ acc, c.isDigit = true) →
    ∀ c ∈ Nat.toDigitsCore 10 fuel n acc, c.isDigit = true := by
  induction fuel with
  | zero => intro n acc h; simpa [Nat.toDigitsCore] using h
  | succ fuel ih =>
    intro n acc h
    have hd : ∀ c ∈ Nat.digitChar (n % 10) :: acc, c.isDigit = true := by
      intro c hc
      rcases List.mem_cons.mp hc with rfl | hc
      · exact digitChar_isDigit _ (Nat.mod_lt _ (by norm_num))
      · exact h c hc
    simp only [Nat.toDigitsCore]
    split_ifs
    · exact hd
    · exact ih _ _ hd

theorem toDigitsCore_length_le (fuel : ℕ) : ∀ (n : ℕ) (acc : List Char),
    acc.length ≤ (Nat.toDigitsCore 10 fuel n acc).length := by
  induction fuel with
  | zero => intro n acc; simp [Nat.toDigitsCore]
  | succ fuel ih =>
    intro n acc
    simp only [Nat.toDigitsCore]
    split_ifs
    · simp
    · exact le_trans (by simp) (ih _ _)

theorem toDigitsCore_value (fuel : ℕ) : ∀ (n : ℕ) (acc : List Char), n < fuel →
    digitsValue (Nat.toDigitsCore 10 fuel n acc)
      = acc.foldl (fun a c => 10 * a + (c.toNat - 48)) n := by
  induction fuel with
  | zero => intro n acc h; exact absurd h (Nat.not_lt_zero n)
  | succ fuel ih =>
    intro n acc h
    simp only [Nat.toDigitsCore]
    split_ifs with h0
    · have hv := digitChar_value _ (Nat.mod_lt n (by norm_num : 0 < 10))
      have hn : n % 10 = n := Nat.mod_eq_of_lt (by omega)
      rw [hn] at hv
      simp only [digitsValue, List.foldl_cons, hn, hv, Nat.mul_zero, Nat.zero_add]
    · rw [ih _ _ (by omega)]
      simp only [List.foldl_cons, digitChar_value _ (Nat.mod_lt n (by norm_num))]
      congr 1
      omega

theorem toDigits_isDigit (n : ℕ) : ∀ c ∈ Nat.toDigits 10 n, c.isDigit = true :=
  toDigitsCore_isDigit _ _ _ (by simp)

theorem toDigits_ne_nil (n : ℕ) : Nat.toDigits 10 n ≠ [] := by
  intro h
  have hlen : (Nat.toDigits 10 n).length = 0 := by rw [h]; rfl
  unfold Nat.toDigits at hlen
  simp only [Nat.toDigitsCore] at hlen
  split_ifs at hlen
  · simp at hlen
  · have := toDigitsCore_length_le n (n / 10) [Nat.digitChar (n % 10)]
    simp at this
    omega

theorem toDigits_value (n : ℕ) : digitsValue (Nat.toDigits 10 n) = n := by
  unfold Nat.toDigits
  rw [toDigitsCore_value _ _ _ (Nat.lt_succ_self n)]
  rfl

theorem lastDigits_length (w n : ℕ) : (lastDigits w n).length = w := by
  induction w generalizing n with
  | zero => rfl
  | succ w ih => simp [lastDigits, ih]

theorem lastDigits_isDigit (w n : ℕ) : ∀ c ∈ lastDigits w n, c.isDigit = true := by
  induction w generalizing n with
  | zero => intro c hc; simp [lastDigits] at hc
  | succ w ih =>
    intro c hc
    simp only [lastDigits, List.mem_append, List.mem_singleton] at hc
    rcases hc with hc | rfl
    · exact ih _ c hc
    · exact digitChar_isDigit _ (Nat.mod_lt _ (by norm_num))

theorem digitsValue_append_singleton (cs : List Char) (c : Char) :
    digitsValue (cs ++ [c]) = 10 * digitsValue cs + (c.toNat - 48) := by
  simp [digitsValue, List.foldl_append]

theorem lastDigits_value (w n : ℕ) : digitsValue (lastDigits w n) = n % 10 ^ w := by
  induction w generalizing n with
  | zero => simp [lastDigits, digitsValue, Nat.mod_one]
  | succ w ih =>
    rw [lastDigits, digitsValue_append_singleton, ih,
      digitChar_value _ (Nat.mod_lt n (by norm_num)), pow_succ, mul_comm (10 ^ w) 10,
      Nat.mod_mul]
    omega

theorem roundHalfEven_error (n d : ℕ) (hd : 0 < d) :
    abs ((roundHalfEven n d : ℚ) - (n : ℚ) / d) ≤ 1 / 2 := by
  have hdq : (0 : ℚ) < d := by exact_mod_cast hd
  have hn : (n : ℚ) / d = (n / d : ℕ) + (n % d : ℕ) / (d : ℚ) := by
    have h := Nat.div_add_mod n d
    have hq : (n : ℚ) = (d : ℚ) * (n / d : ℕ) + (n % d : ℕ) := by exact_mod_cast h.symm
    field_simp
    linarith
  have hr0 : (0 : ℚ) ≤ (n % d : ℕ) / (d : ℚ) := by positivity
  rw [hn, abs_le]
  unfold roundHalfEven
  simp only
  split_ifs with h1 h2 h3
  · have : ((n % d : ℕ) : ℚ) / d ≤ 1 / 2 := by
      rw [div_le_div_iff₀ hdq (by norm_num)]
      have : (2 : ℚ) * ((n % d : ℕ) : ℚ) < d := by exact_mod_cast h1
      linarith
    constructor <;> linarith
  · have : (1 : ℚ) / 2 ≤ ((n % d : ℕ) : ℚ) / d := by
      rw [div_le_div_iff₀ (by norm_num) hdq]
      have : (d : ℚ) < (2 : ℚ) * ((n % d : ℕ) : ℚ) := by exact_mod_cast h2
      linarith
    have hlt : ((n % d : ℕ) : ℚ) / d ≤ 1 := by
      rw [div_le_one hdq]
      exact_mod_cast (Nat.mod_lt n hd).le
    push_cast
    constructor <;> linarith
  · have he : 2 * (n % d) = d := by omega
    have : ((n % d : ℕ) : ℚ) / d = 1 / 2 := by
      rw [div_eq_div_iff hdq.ne' (by norm_num)]
      have : (2 : ℚ) * ((n % d : ℕ) : ℚ) = d := by exact_mod_cast he
      linarith
    constructor <;> linarith
  · have he : 2 * (n % d) = d := by omega
    have : ((n % d : ℕ) : ℚ) / d = 1 / 2 := by
      rw [div_eq_div_iff hdq.ne' (by norm_num)]
      have : (2 : ℚ) * ((n % d : ℕ) : ℚ) = d := by exact_mod_cast he
      linarith
    push_cast
    constructor <;> linarith

theorem natAbs_num_div_den (x : ℚ) : (x.num.natAbs : ℚ) / x.den = abs x := by
  have hden : (0 : ℚ) < x.den := by exact_mod_cast x.den_pos
  conv_rhs => rw [← Rat.num_div_den x]
  rw [abs_div, abs_of_pos hden, Nat.cast_natAbs, Int.cast_abs]

/-- The digits that `fixed 5` writes denote the value rounded to the fifth
decimal. -/
theorem fixed_value_error (x : ℚ) :
    abs ((((roundHalfEven (x.num.natAbs * 10 ^ 5) x.den) / 10 ^ 5 : ℕ) : ℚ)
      + (((roundHalfEven (x.num.natAbs * 10 ^ 5) x.den) % 10 ^ 5 : ℕ) : ℚ) / 10 ^ 5 - abs x)
      ≤ 1 / (2 * 10 ^ 5) := by
  set m := roundHalfEven (x.num.natAbs * 10 ^ 5) x.den with hm
  have hsplit : ((m / 10 ^ 5 : ℕ) : ℚ) + ((m % 10 ^ 5 : ℕ) : ℚ) / 10 ^ 5 = (m : ℚ) / 10 ^ 5 := by
    have h := Nat.div_add_mod m (10 ^ 5)
    have hq : (m : ℚ) = (10 ^ 5 : ℚ) * (m / 10 ^ 5 : ℕ) + (m % 10 ^ 5 : ℕ) := by
      exact_mod_cast h.symm
    field_simp
    linarith
  have herr := roundHalfEven_error (x.num.natAbs * 10 ^ 5) x.den x.den_pos
  rw [← hm] at herr
  have hx : ((x.num.natAbs * 10 ^ 5 : ℕ) : ℚ) / x.den = abs x * 10 ^ 5 := by
    rw [← natAbs_num_div_den x]
    push_cast
    ring
  rw [hx] at herr
  rw [hsplit]
  have h10 : (0 : ℚ) < 10 ^ 5 := by norm_num
  have : (m : ℚ) / 10 ^ 5 - abs x = ((m : ℚ) - abs x * 10 ^ 5) / 10 ^ 5 := by
    field_simp
    ring
  rw [this, abs_div, abs_of_pos h10, div_le_div_iff₀ h10 (by norm_num)]
  calc abs ((m : ℚ) - abs x * 10 ^ 5) * (2 * 10 ^ 5)
      ≤ 1 / 2 * (2 * 10 ^ 5) := by
        exact mul_le_mul_of_nonneg_right herr (by norm_num)
    _ = 1 * 10 ^ 5 := by norm_num

/-- Every field the output statement writes meets the format of the
specification. -/
theorem field_isFixed5Field (x : ℚ) : IsFixed5Field x (field x) := by
  refine ⟨List.replicate (10 - (fixed 5 x).length) ' ', if x < 0 then ['-'] else [],
    Nat.toDigits 10 (roundHalfEven (x.num.natAbs * 10 ^ 5) x.den / 10 ^ 5),
    lastDigits 5 (roundHalfEven (x.num.natAbs * 10 ^ 5) x.den % 10 ^ 5),
    ?_, ?_, ?_, rfl, toDigits_ne_nil _, toDigits_isDigit _, lastDigits_length _ _,
    lastDigits_isDigit _ _, ?_⟩
  · simp [field, setw, fixed]
  · intro c hc
    exact (List.mem_replicate.mp hc).2
  · have hfix : fixed 5 x = (if x < 0 then ['-'] else [])
        ++ Nat.toDigits 10 (roundHalfEven (x.num.natAbs * 10 ^ 5) x.den / 10 ^ 5)
        ++ '.' :: lastDigits 5 (roundHalfEven (x.num.natAbs * 10 ^ 5) x.den % 10 ^ 5) := by
      simp [fixed]
    rw [← hfix]
    simp only [field, setw, List.length_append, List.length_replicate]
    omega
  · rw [toDigits_value, lastDigits_value, Nat.mod_mod]
    exact fixed_value_error x

theorem field_no_newline (x : ℚ) : ∀ c ∈ field x, c ≠ '\n' := by
  obtain ⟨pad, sign, intPart, frac, hcs, hpad, -, hsign, -, hint, -, hfrac, -⟩ :=
    field_isFixed5Field x
  intro c hc
  rw [hcs] at hc
  simp only [List.mem_append, List.mem_cons] at hc
  rcases hc with hc | (hc | hc) | hc | hc
  · rw [hpad c hc]; decide
  · rw [hsign] at hc
    split_ifs at hc
    · rw [List.mem_singleton.mp hc]; decide
    · simp at hc
  · intro h
    have := hint c hc
    rw [h] at this
    exact absurd this (by decide)
  · rw [hc]; decide
  · intro h
    have := hfrac c hc
    rw [h] at this
    exact absurd this (by decide)

/-- A run with six arguments whose selectivity has the value `s` writes the
result line and returns 0. -/
theorem main_of_selectivity (env : Env) (prog p a b fileA fileB : String) (s : ℚ)
    (hs : selectivity (locals (env.atof p) (env.atof a) (env.atof b)
      (env.stored fileA) (env.stored fileB)) = some s) :
    main env [prog, p, a, b, fileA, fileB]
      = some ⟨0, String.mk (field (env.atof p) ++ ['\t', ' '] ++ field s ++ ['\n'])⟩ := by
  simp only [main, outputLine, hs]
  rfl

/-- A run with six arguments that returns has a selectivity with a value. -/
theorem selectivity_of_main (env : Env) (prog p a b fileA fileB : String) (r : Run)
    (h : main env [prog, p, a, b, fileA, fileB] = some r) :
    ∃ s, selectivity (locals (env.atof p) (env.atof a) (env.atof b)
      (env.stored fileA) (env.stored fileB)) = some s := by
  cases hs : selectivity (locals (env.atof p) (env.atof a) (env.atof b)
      (env.stored fileA) (env.stored fileB)) with
  | some s => exact ⟨s, rfl⟩
  | none => simp [main, outputLine, hs] at h

/-! ## The selectivity value -/

/-- C1: with the bulk pair `A`, `B` from the command line and the sorbed pair
`As`, `Bs` read from the two files, the bulk mole fractions are `A/(A+B)` and
`B/(A+B)`, the sorbed mole fractions are `As/(As+Bs)` and `Bs/(As+Bs)`, and the
selectivity is `(xA/yA)/(xB/yB)`; the inputs 3, 7, 6, 4 give exactly 7/2 and the
inputs 1, 1, 1, 1 give exactly 1. -/
theorem selectivity_formula (P A B As Bs : ℚ) :
    (locals P A B (some As) (some Bs)).yA = divide A (A + B)
    ∧ (locals P A B (some As) (some Bs)).yB = divide B (A + B)
    ∧ (locals P A B (some As) (some Bs)).xA = divide As (As + Bs)
    ∧ (locals P A B (some As) (some Bs)).xB = divide Bs (As + Bs)
    ∧ selectivity (locals P A B (some As) (some Bs))
        = fdiv (fdiv (divide As (As + Bs)) (divide A (A + B)))
            (fdiv (divide Bs (As + Bs)) (divide B (A + B)))
    ∧ selectivity (locals P 3 7 (some 6) (some 4)) = some (7 / 2)
    ∧ selectivity (locals P 1 1 (some 1) (some 1)) = some 1 := by
  refine ⟨rfl, rfl, rfl, rfl, rfl, ?_, ?_⟩
  · rw [selectivity_eq_some] <;> simp [extract] <;> norm_num
  · rw [selectivity_eq_some] <;> simp [extract]

/-- C2: whenever the selectivity of a run has a value, the run with the two
species exchanged (the bulk quantities swapped and the sorbed quantities
swapped) has the selectivity 1 divided by the original one. -/
theorem selectivity_swap (P A B : ℚ) (sA sB : Option ℚ)
    (h : (selectivity (locals P A B sA sB)).isSome) :
    selectivity (locals P B A sB sA) = fdiv (some 1) (selectivity (locals P A B sA sB)) := by
  obtain ⟨hT, hS, hA, hB, hb⟩ := (selectivity_isSome_iff P A B sA sB).mp h
  rw [selectivity_eq_some P A B sA sB hT hS hA hB hb]
  by_cases ha : extract sA A = 0
  · have h0 : selectivity (locals P B A sB sA) = none := by
      cases hs : selectivity (locals P B A sB sA) with
      | none => rfl
      | some v =>
        have hsome : (selectivity (locals P B A sB sA)).isSome := by simp [hs]
        exact absurd ha ((selectivity_isSome_iff P B A sB sA).mp hsome).2.2.2.2
    rw [h0, ha]
    simp [fdiv, divide]
  · rw [selectivity_eq_some P B A sB sA (by rwa [add_comm]) (by rwa [add_comm]) hB hA ha]
    have hne : extract sA A * B / (extract sB B * A) ≠ 0 :=
      div_ne_zero (mul_ne_zero ha hB) (mul_ne_zero hb hA)
    simp only [fdiv, divide, hne, if_false]
    rw [one_div, inv_div]

/-- A run on which `selectivity_swap` applies: bulk 3 and 7, sorbed 6 and 4. -/
theorem selectivity_swap_witness :
    (selectivity (locals 10 3 7 (some 6) (some 4))).isSome
    ∧ selectivity (locals 10 7 3 (some 4) (some 6))
        = fdiv (some 1) (selectivity (locals 10 3 7 (some 6) (some 4))) :=
  ⟨by with_unfolding_all decide,
    selectivity_swap 10 3 7 (some 6) (some 4) (by with_unfolding_all decide)⟩

/-- C3: for positive bulk quantities the two bulk mole fractions have values
that add up to 1, and for positive sorbed quantities the two sorbed mole
fractions have values that add up to 1. -/
theorem mole_fractions_sum_one :
    (∀ (P A B : ℚ) (sA sB : Option ℚ), 0 < A → 0 < B →
      ∃ ya yb, (locals P A B sA sB).yA = some ya ∧ (locals P A B sA sB).yB = some yb
        ∧ ya + yb = 1)
    ∧ (∀ (P A B As Bs : ℚ), 0 < As → 0 < Bs →
      ∃ xa xb, (locals P A B (some As) (some Bs)).xA = some xa
        ∧ (locals P A B (some As) (some Bs)).xB = some xb ∧ xa + xb = 1) := by
  constructor
  · intro P A B sA sB hA hB
    have hT : A + B ≠ 0 := by positivity
    refine ⟨A / (A + B), B / (A + B), divide_eq_some hT, divide_eq_some hT, ?_⟩
    field_simp
  · intro P A B As Bs hA hB
    have hT : As + Bs ≠ 0 := by positivity
    refine ⟨As / (As + Bs), Bs / (As + Bs), divide_eq_some hT, divide_eq_some hT, ?_⟩
    field_simp

/-- A run on which `mole_fractions_sum_one` applies: bulk 3 and 7, sorbed 6
and 4. -/
theorem mole_fractions_sum_one_witness :
    (∃ ya yb, (locals 10 3 7 (some 6) (some 4)).yA = some ya
        ∧ (locals 10 3 7 (some 6) (some 4)).yB = some yb ∧ ya + yb = 1)
    ∧ (∃ xa xb, (locals 10 3 7 (some 6) (some 4)).xA = some xa
        ∧ (locals 10 3 7 (some 6) (some 4)).xB = some xb ∧ xa + xb = 1) :=
  ⟨mole_fractions_sum_one.1 10 3 7 (some 6) (some 4) (by norm_num) (by norm_num),
    mole_fractions_sum_one.2 10 3 7 6 4 (by norm_num) (by norm_num)⟩

/-- C4, as stated, fails: with the bulk quantities -1 and 2 the total is
positive, yet the bulk mole fractions are -1 and 2, outside the interval from 0
to 1. -/
theorem mole_fraction_out_of_range :
    (0 : ℚ) < -1 + 2
    ∧ (locals 10 (-1) 2 (some 6) (some 4)).yA = some (-1)
    ∧ (locals 10 (-1) 2 (some 6) (some 4)).yB = some 2
    ∧ ¬ ((0 : ℚ) ≤ -1) ∧ ¬ ((2 : ℚ) ≤ 1) := by
  refine ⟨by norm_num, ?_, ?_, by norm_num, by norm_num⟩
  · show divide (-1) (-1 + 2) = some (-1)
    rw [divide_eq_some (by norm_num)]
    norm_num
  · show divide 2 (-1 + 2) = some 2
    rw [divide_eq_some (by norm_num)]
    norm_num

/-- C4, amended: when both quantities of a phase are nonnegative and their total
is positive, both mole fractions of that phase have values in the closed
interval from 0 to 1. -/
theorem mole_fractions_in_unit_interval :
    (∀ (P A B : ℚ) (sA sB : Option ℚ), 0 ≤ A → 0 ≤ B → 0 < A + B →
      ∃ ya yb, (locals P A B sA sB).yA = some ya ∧ (locals P A B sA sB).yB = some yb
        ∧ 0 ≤ ya ∧ ya ≤ 1 ∧ 0 ≤ yb ∧ yb ≤ 1)
    ∧ (∀ (P A B As Bs : ℚ), 0 ≤ As → 0 ≤ Bs → 0 < As + Bs →
      ∃ xa xb, (locals P A B (some As) (some Bs)).xA = some xa
        ∧ (locals P A B (some As) (some Bs)).xB = some xb
        ∧ 0 ≤ xa ∧ xa ≤ 1 ∧ 0 ≤ xb ∧ xb ≤ 1) := by
  have key : ∀ a b : ℚ, 0 ≤ a → 0 ≤ b → 0 < a + b →
      0 ≤ a / (a + b) ∧ a / (a + b) ≤ 1 ∧ 0 ≤ b / (a + b) ∧ b / (a + b) ≤ 1 := by
    intro a b ha hb hab
    refine ⟨div_nonneg ha hab.le, ?_, div_nonneg hb hab.le, ?_⟩
    · rw [div_le_one hab]; linarith
    · rw [div_le_one hab]; linarith
  constructor
  · intro P A B sA sB hA hB hT
    exact ⟨A / (A + B), B / (A + B), divide_eq_some hT.ne', divide_eq_some hT.ne',
      key A B hA hB hT⟩
  · intro P A B As Bs hA hB hT
    exact ⟨As / (As + Bs), Bs / (As + Bs), divide_eq_some hT.ne', divide_eq_some hT.ne',
      key As Bs hA hB hT⟩

/-- A run on which `mole_fractions_in_unit_interval` applies: bulk 0 and 7,
sorbed 6 and 0. -/
theorem mole_fractions_in_unit_interval_witness :
    (∃ ya yb, (locals 10 0 7 (some 6) (some 0)).yA = some ya
        ∧ (locals 10 0 7 (some 6) (some 0)).yB = some yb
        ∧ 0 ≤ ya ∧ ya ≤ 1 ∧ 0 ≤ yb ∧ yb ≤ 1)
    ∧ (∃ xa xb, (locals 10 0 7 (some 6) (some 0)).xA = some xa
        ∧ (locals 10 0 7 (some 6) (some 0)).xB = some xb
        ∧ 0 ≤ xa ∧ xa ≤ 1 ∧ 0 ≤ xb ∧ xb ≤ 1) :=
  ⟨mole_fractions_in_unit_interval.1 10 0 7 (some 6) (some 0)
      (by norm_num) (by norm_num) (by norm_num),
    mole_fractions_in_unit_interval.2 10 0 7 6 0 (by norm_num) (by norm_num) (by norm_num)⟩

/-- C9: when the four quantities and the two totals are different from zero, the
selectivity is `(As * B) / (Bs * A)`, and it is unchanged when both bulk
quantities are multiplied by a nonzero `k` and both sorbed quantities by a
nonzero `m`. -/
theorem selectivity_closed_form (P A B As Bs k m : ℚ)
    (hA : A ≠ 0) (hB : B ≠ 0) (_hAs : As ≠ 0) (hBs : Bs ≠ 0)
    (hT : A + B ≠ 0) (hS : As + Bs ≠ 0) (hk : k ≠ 0) (hm : m ≠ 0) :
    selectivity (locals P A B (some As) (some Bs)) = some ((As * B) / (Bs * A))
    ∧ selectivity (locals P (k * A) (k * B) (some (m * As)) (some (m * Bs)))
        = selectivity (locals P A B (some As) (some Bs)) := by
  have h1 : selectivity (locals P A B (some As) (some Bs)) = some ((As * B) / (Bs * A)) :=
    selectivity_eq_some P A B (some As) (some Bs) hT hS hA hB hBs
  have hkT : k * A + k * B ≠ 0 := by
    rw [← mul_add]; exact mul_ne_zero hk hT
  have hmS : m * As + m * Bs ≠ 0 := by
    rw [← mul_add]; exact mul_ne_zero hm hS
  have h2 := selectivity_eq_some P (k * A) (k * B) (some (m * As)) (some (m * Bs)) hkT hmS
    (mul_ne_zero hk hA) (mul_ne_zero hk hB) (mul_ne_zero hm hBs)
  refine ⟨h1, ?_⟩
  rw [h1, h2]
  simp only [extract]
  congr 1
  field_simp
  ring

/-- A run on which `selectivity_closed_form` applies: bulk 3 and 7, sorbed 6 and
4, scaled by 2 and by 5. -/
theorem selectivity_closed_form_witness :
    selectivity (locals 10 3 7 (some 6) (some 4)) = some ((6 * 7) / (4 * 3))
    ∧ selectivity (locals 10 (2 * 3) (2 * 7) (some (5 * 6)) (some (5 * 4)))
        = selectivity (locals 10 3 7 (some 6) (some 4)) :=
  selectivity_closed_form 10 3 7 6 4 2 5 (by norm_num) (by norm_num) (by norm_num)
    (by norm_num) (by norm_num) (by norm_num) (by norm_num) (by norm_num)

/-! ## The run and its output -/

/-- C7, as stated, fails: in scenario 1 the output is the two fields separated by
a tab and a space, not by a tab alone. -/
theorem separator_is_tab_and_space :
    main scenario1Env ["selectivity", "1", "1", "1", "fileA", "fileB"]
      = some ⟨0, "   1.00000\t    1.00000\n"⟩
    ∧ "   1.00000\t    1.00000\n".data = field 1 ++ ['\t', ' '] ++ field 1 ++ ['\n']
    ∧ "   1.00000\t    1.00000\n".data ≠ field 1 ++ ['\t'] ++ field 1 ++ ['\n'] := by
  with_unfolding_all decide

/-- C7, amended: a run with 5 arguments that returns has status 0 and writes
exactly one line: the pressure in fixed-point with exactly 5 digits after the
point, right-aligned in a field of width 10, then a tab and one space, then the
selectivity written the same way, then a newline. -/
theorem output_line_format (env : Env) (prog p a b fileA fileB : String) (r : Run)
    (h : main env [prog, p, a, b, fileA, fileB] = some r) :
    r.status = 0
    ∧ r.out.data.count '\n' = 1
    ∧ ∃ s fP fS,
        selectivity (locals (env.atof p) (env.atof a) (env.atof b)
          (env.stored fileA) (env.stored fileB)) = some s
        ∧ r.out.data = fP ++ ['\t', ' '] ++ fS ++ ['\n']
        ∧ IsFixed5Field (env.atof p) fP
        ∧ IsFixed5Field s fS := by
  obtain ⟨s, hs⟩ := selectivity_of_main env prog p a b fileA fileB r h
  rw [main_of_selectivity env prog p a b fileA fileB s hs] at h
  obtain rfl := Option.some.inj h
  refine ⟨rfl, ?_, s, field (env.atof p), field s, hs, rfl,
    field_isFixed5Field _, field_isFixed5Field _⟩
  have h1 : (field (env.atof p)).count '\n' = 0 :=
    List.count_eq_zero.mpr fun hc => field_no_newline _ _ hc rfl
  have h2 : (field s).count '\n' = 0 :=
    List.count_eq_zero.mpr fun hc => field_no_newline _ _ hc rfl
  simp only [List.count_append, h1, h2]
  decide

/-- A run on which `output_line_format` applies: `2 3 5 fileA fileB` with neither
file present. -/
theorem output_line_format_witness :
    main missingBothEnv ["selectivity", "2", "3", "5", "fileA", "fileB"]
      = some ⟨0, "   2.00000\t    1.00000\n"⟩
    ∧ "   2.00000\t    1.00000\n".data.count '\n' = 1
    ∧ ∃ s fP fS,
        selectivity (locals 2 3 5 none none) = some s
        ∧ "   2.00000\t    1.00000\n".data = fP ++ ['\t', ' '] ++ fS ++ ['\n']
        ∧ IsFixed5Field 2 fP
        ∧ IsFixed5Field s fS :=
  have h := output_line_format missingBothEnv "selectivity" "2" "3" "5" "fileA" "fileB"
    ⟨0, "   2.00000\t    1.00000\n"⟩ (by with_unfolding_all decide)
  ⟨by with_unfolding_all decide, h.2.1, h.2.2⟩

/-- C8, as stated, fails: the output of scenario 2 is not the string with five
spaces after the tab. -/
theorem scenario2_not_five_spaces :
    main scenario2Env ["selectivity", "10", "3", "7", "fileA", "fileB"]
      ≠ some ⟨0, "  10.00000\t     3.50000\n"⟩ := by
  with_unfolding_all decide

/-- C8, amended: invoked with P=10, A=3, B=7, the first file holding 6 and the
second 4, the program writes two spaces, 10.00000, one tab, four spaces,
3.50000 and a newline, and returns 0. -/
theorem scenario2_output (env : Env) (prog fileA fileB : String)
    (hP : env.atof "10" = 10) (hA : env.atof "3" = 3) (hB : env.atof "7" = 7)
    (hfA : env.stored fileA = some 6) (hfB : env.stored fileB = some 4) :
    main env [prog, "10", "3", "7", fileA, fileB]
      = some ⟨0, "  10.00000\t    3.50000\n"⟩ := by
  have hs : selectivity (locals (env.atof "10") (env.atof "3") (env.atof "7")
      (env.stored fileA) (env.stored fileB)) = some (7 / 2) := by
    rw [hP, hA, hB, hfA, hfB]
    with_unfolding_all decide
  rw [main_of_selectivity env prog "10" "3" "7" fileA fileB (7 / 2) hs, hP]
  with_unfolding_all decide

/-- Scenario 2 itself, on which `scenario2_output` applies. -/
theorem scenario2_output_witness :
    main scenario2Env ["selectivity", "10", "3", "7", "fileA", "fileB"]
      = some ⟨0, "  10.00000\t    3.50000\n"⟩ :=
  scenario2_output scenario2Env "selectivity" "fileA" "fileB" rfl rfl rfl rfl rfl

end Selectivity
